import Mathlib

/-!
Shallow embedding of the EMS-ESP-Flasher serial flashing tool
(emsesp_flasher/own_esptool.py): SLIP framing, the ROM checksum, the
sync stub detection, the RAM download path, the flash write pipeline,
the flash parameter patch and the firmware image segment bound.
Bytes are modelled as natural numbers; byte strings as lists of
naturals.
-/

namespace EmsEspFlasher

/-! ## SLIP framing (ESPLoader.write, slip_reader) -/

/-- Single byte substitution, the behaviour of bytes.replace with a
one-byte needle: each occurrence of the byte a is replaced by rep. -/
def replaceByte (a : Nat) (rep : List Nat) : List Nat → List Nat
  | [] => []
  | b :: rest => (if b = a then rep else [b]) ++ replaceByte a rep rest

/-- ESPLoader.write: wrap the packet in 0xC0 delimiters, escaping
0xDB as 0xDB 0xDD first and then 0xC0 as 0xDB 0xDC. -/
def slip_encode (packet : List Nat) : List Nat :=
  0xc0 :: (replaceByte 0xc0 [0xdb, 0xdc] (replaceByte 0xdb [0xdb, 0xdd] packet) ++ [0xc0])

/-- The combined per-byte effect of the two sequential substitutions
of slip_encode. -/
def escapedByte (b : Nat) : List Nat :=
  if b = 0xdb then [0xdb, 0xdd] else if b = 0xc0 then [0xdb, 0xdc] else [b]

/-- escapedByte applied to every byte, concatenated. -/
def escapeAll : List Nat → List Nat
  | [] => []
  | b :: rest => escapedByte b ++ escapeAll rest

/-- The two fatal decoding errors of slip_reader. -/
inductive SlipError where
  | invalidHead (b : Nat)
  | invalidEscape (b : Nat)
deriving DecidableEq, Repr

/-- State of the slip_reader loop: packetAcc models partial_packet
(none while waiting for a packet head), inEscape the in_escape flag. -/
structure SlipState where
  packetAcc : Option (List Nat)
  inEscape : Bool
deriving DecidableEq, Repr

/-- One byte of the slip_reader state machine, in the branch order of
the source; emits the packets yielded by this byte. -/
def slip_step (st : SlipState) (b : Nat) :
    Except SlipError (SlipState × List (List Nat)) :=
  match st.packetAcc with
  | none =>
    if b = 0xc0 then .ok (⟨some [], st.inEscape⟩, [])
    else .error (.invalidHead b)
  | some acc =>
    if st.inEscape then
      if b = 0xdc then .ok (⟨some (acc ++ [0xc0]), false⟩, [])
      else if b = 0xdd then .ok (⟨some (acc ++ [0xdb]), false⟩, [])
      else .error (.invalidEscape b)
    else if b = 0xdb then .ok (⟨some acc, true⟩, [])
    else if b = 0xc0 then .ok (⟨none, st.inEscape⟩, [acc])
    else .ok (⟨some (acc ++ [b]), st.inEscape⟩, [])

/-- Run the slip_reader state machine over a byte list, collecting
every yielded packet. -/
def slip_run (st : SlipState) : List Nat → Except SlipError (SlipState × List (List Nat))
  | [] => .ok (st, [])
  | b :: rest =>
    match slip_step st b with
    | .error e => .error e
    | .ok (st2, out1) =>
      match slip_run st2 rest with
      | .error e => .error e
      | .ok (st3, out2) => .ok (st3, out1 ++ out2)

/-- Decode a byte stream from the initial slip_reader state, returning
the list of yielded packets. -/
def slip_decode (input : List Nat) : Except SlipError (List (List Nat)) :=
  (slip_run ⟨none, false⟩ input).map Prod.snd

/-! ## ROM checksum (ESPLoader.checksum) -/

def ESP_CHECKSUM_MAGIC : Nat := 0xef

/-- ESPLoader.checksum: XOR-fold each byte of data into the state. -/
def checksum (data : List Nat) (state : Nat := ESP_CHECKSUM_MAGIC) : Nat :=
  data.foldl (fun s b => s ^^^ b) state

/-! ## Sync stub detection (ESPLoader.sync) -/

/-- ESPLoader.sync: the flag is set from the value field of the sync
reply and then AND-folded with each of the drain read value fields. -/
def sync_stub_detected (sync_val : Nat) (drain_vals : List Nat) : Bool :=
  drain_vals.foldl (fun det v => det && decide (v = 0)) (decide (sync_val = 0))

/-! ## RAM download (ESPLoader.mem_begin, mem_block, run_stub) -/

def div_roundup (a b : Nat) : Nat := (a + b - 1) / b

/-- The stub binary of a chip profile: text and data segments with
their resident load addresses. -/
structure StubCode where
  text : List Nat
  text_start : Nat
  data : List Nat
  data_start : Nat
deriving DecidableEq, Repr

/-- Commands a RAM download session sends on the wire. -/
inductive MemCmd where
  | memBeginCmd (size blocks blocksize offset : Nat)
  | memBlockCmd (data : List Nat) (seq : Nat)
deriving DecidableEq, Repr

/-- ESPLoader.mem_begin: when the loader commands go to a resident
stub (IS_STUB), a load range overlapping the stub data or text range
is a fatal error raised before the ESP_MEM_BEGIN command is sent; the
ranges are checked in source order, data first. -/
def mem_begin (is_stub : Bool) (stub : StubCode)
    (size blocks blocksize offset : Nat) : Except String (List MemCmd) :=
  if is_stub then
    let load_start := offset
    let load_end := offset + size
    if load_start < stub.data_start + stub.data.length ∧ load_end > stub.data_start then
      .error "Software loader is resident at an overlapping address range"
    else if load_start < stub.text_start + stub.text.length ∧ load_end > stub.text_start then
      .error "Software loader is resident at an overlapping address range"
    else .ok [.memBeginCmd size blocks blocksize offset]
  else .ok [.memBeginCmd size blocks blocksize offset]

/-- One RAM download session for a payload, as the per-segment loop of
run_stub drives it: mem_begin for the whole payload, then one
mem_block per block slice of size ESP_RAM_BLOCK. -/
def ram_download (is_stub : Bool) (stub : StubCode) (ram_block : Nat)
    (offs : Nat) (payload : List Nat) : Except String (List MemCmd) :=
  let length := payload.length
  let blocks := div_roundup length ram_block
  match mem_begin is_stub stub length blocks ram_block offs with
  | .error e => .error e
  | .ok cmds =>
    .ok (cmds ++ (List.range blocks).map (fun seq =>
      .memBlockCmd ((payload.drop (seq * ram_block)).take ram_block) seq))

/-! ## Firmware image segments (ImageSegment, BaseFirmwareImage.verify) -/

/-- ImageSegment: a load address, the raw bytes and the offset of the
segment in the image file. -/
structure ImageSegment where
  addr : Nat
  data : List Nat
  file_offs : Option Nat := none
deriving DecidableEq, Repr

/-- The state of BaseFirmwareImage that its verify method reads. -/
structure BaseFirmwareImage where
  segments : List ImageSegment
deriving DecidableEq, Repr

/-- BaseFirmwareImage.verify: reject an image holding more than 16
segments. -/
def BaseFirmwareImage.verify (img : BaseFirmwareImage) : Except String Unit :=
  if img.segments.length > 16 then
    .error "Invalid segment count (max 16). Usually this indicates a linker script problem."
  else .ok ()

/-! ## Flash parameter patch (_update_image_flash_params) -/

/-- A CLI flash setting: the literal keep, or an already looked-up
byte value from the FLASH_SIZES / FLASH_FREQUENCY tables. -/
inductive KeepOr where
  | keep
  | val (v : Nat)
deriving DecidableEq, Repr

/-- The write_flash options that _update_image_flash_params reads. -/
structure FlashArgs where
  flash_mode : KeepOr
  flash_freq : KeepOr
  flash_size : KeepOr
deriving DecidableEq, Repr

/-- The chip-dependent data _update_image_flash_params and write_flash
consult. bootloaderImageOK abstracts the BOOTLOADER_IMAGE parse plus
verify call: true exactly when the buffer loads as a structurally
valid image of the chip. -/
structure EspCfg where
  BOOTLOADER_FLASH_OFFSET : Nat
  ESP_IMAGE_MAGIC : Nat
  FLASH_WRITE_SIZE : Nat
  FLASH_ENCRYPTED_WRITE_ALIGN : Nat
  secure_download_mode : Bool
  bootloaderImageOK : List Nat → Bool

/-- _update_image_flash_params: patch bytes 2 and 3 of a bootloader
image in place. The nibble splits model flash_size_freq bitwise-and
0x0F and bitwise-and 0xF0 for byte values. -/
def _update_image_flash_params (esp : EspCfg) (address : Nat)
    (args : FlashArgs) (image : List Nat) : List Nat :=
  if image.length < 8 then image
  else if address ≠ esp.BOOTLOADER_FLASH_OFFSET then image
  else if args.flash_mode = .keep ∧ args.flash_freq = .keep ∧ args.flash_size = .keep then
    image
  else if image.getD 0 0 ≠ esp.ESP_IMAGE_MAGIC then image
  else if ¬ esp.bootloaderImageOK image then image
  else
    let flash_mode := match args.flash_mode with
      | .keep => image.getD 2 0
      | .val v => v
    let flash_freq := match args.flash_freq with
      | .keep => image.getD 3 0 % 16
      | .val v => v
    let flash_size := match args.flash_size with
      | .keep => image.getD 3 0 / 16 * 16
      | .val v => v
    let flash_params := [flash_mode, flash_size + flash_freq]
    if flash_params = [image.getD 2 0, image.getD 3 0] then image
    else image.take 2 ++ flash_params ++ image.drop 4

/-! ## Flash write pipeline (write_flash, flash_begin, flash_block) -/

/-- pad_to: pad data with pad bytes to the next alignment boundary. -/
def pad_to (data : List Nat) (alignment : Nat) (pad_character : Nat := 0xFF) :
    List Nat :=
  let pad_mod := data.length % alignment
  if pad_mod ≠ 0 then data ++ List.replicate (alignment - pad_mod) pad_character
  else data

/-- Commands the write_flash per-file loop sends on the wire, plus the
empty-file warning and the closing MD5 comparison. md5CheckCmd carries
the address and size of the flashed range and the local buffer whose
MD5 the device result is compared against. -/
inductive FlashCmd where
  | flashBeginCmd (numBlocks blockSize offset : Nat)
  | flashDeflBeginCmd (size compsize offset : Nat)
  | flashBlockCmd (data : List Nat) (seq : Nat)
  | flashDeflBlockCmd (data : List Nat) (seq : Nat)
  | flashEncryptBlockCmd (data : List Nat) (seq : Nat)
  | md5CheckCmd (address size : Nat) (data : List Nat)
  | warnEmptyCmd
deriving DecidableEq, Repr

/-- The while loop of write_flash: cut FLASH_WRITE_SIZE slices off the
buffer; compressed slices go out as they are, plain slices are padded
with 0xFF to the full block size and sent as encrypted or plain block
writes. The source loop relies on the chip FLASH_WRITE_SIZE being
positive; the bs = 0 guard only makes the recursion well founded. -/
def write_loop (bs : Nat) (compress encrypted : Bool) (image : List Nat)
    (seq : Nat) : List FlashCmd :=
  if h : image = [] ∨ bs = 0 then []
  else
    let block := image.take bs
    let cmd :=
      if compress then FlashCmd.flashDeflBlockCmd block seq
      else
        let padded := block ++ List.replicate (bs - block.length) 0xFF
        if encrypted then FlashCmd.flashEncryptBlockCmd padded seq
        else FlashCmd.flashBlockCmd padded seq
    cmd :: write_loop bs compress encrypted (image.drop bs) (seq + 1)
termination_by image.length
decreasing_by
  push_neg at h
  obtain ⟨h1, h2⟩ := h
  have hpos : 0 < image.length := List.length_pos.mpr h1
  simp only [List.length_drop]
  omega

/-- One file of the write_flash loop: drop compression when the file
is encrypted, pad the content, skip empty files with a warning, patch
the flash parameters, then emit the begin command, the block commands
and (for plain writes outside secure download mode) the MD5 check
against the uncompressed buffer. compressFn abstracts zlib.compress
at level 9. -/
def write_flash_file (esp : EspCfg) (args : FlashArgs)
    (argsCompress : Bool) (compressFn : List Nat → List Nat)
    (address : Nat) (fileData : List Nat) (encrypted : Bool) : List FlashCmd :=
  let compress := if argsCompress && encrypted then false else argsCompress
  let image := pad_to fileData (if encrypted then esp.FLASH_ENCRYPTED_WRITE_ALIGN else 4)
  if image.length = 0 then [.warnEmptyCmd]
  else
    let image := _update_image_flash_params esp address args image
    let uncsize := image.length
    let blockCmds :=
      if compress then
        let compimage := compressFn image
        FlashCmd.flashDeflBeginCmd uncsize compimage.length address
          :: write_loop esp.FLASH_WRITE_SIZE true encrypted compimage 0
      else
        FlashCmd.flashBeginCmd (div_roundup uncsize esp.FLASH_WRITE_SIZE)
            esp.FLASH_WRITE_SIZE address
          :: write_loop esp.FLASH_WRITE_SIZE false encrypted image 0
    let md5Cmds :=
      if ¬ encrypted ∧ ¬ esp.secure_download_mode then
        [FlashCmd.md5CheckCmd address uncsize image]
      else []
    blockCmds ++ md5Cmds

/-- The per-file loop of write_flash over the sorted all_files list of
(address, file content, encrypted) triples. -/
def write_flash_files (esp : EspCfg) (args : FlashArgs)
    (argsCompress : Bool) (compressFn : List Nat → List Nat) :
    List (Nat × List Nat × Bool) → List FlashCmd
  | [] => []
  | (address, fileData, encrypted) :: rest =>
    write_flash_file esp args argsCompress compressFn address fileData encrypted
      ++ write_flash_files esp args argsCompress compressFn rest

/-- The flash_block payloads of a command trace, in order. -/
def flashBlockDatas (cmds : List FlashCmd) : List (List Nat) :=
  cmds.filterMap fun c => match c with
    | .flashBlockCmd d _ => some d
    | _ => none

end EmsEspFlasher

namespace EmsEspFlasher

theorem slip_run_append (st : SlipState) (xs ys : List Nat) :
    slip_run st (xs ++ ys) =
      match slip_run st xs with
      | .error e => .error e
      | .ok (st2, o1) =>
        match slip_run st2 ys with
        | .error e => .error e
        | .ok (st3, o2) => .ok (st3, o1 ++ o2) := by
  induction xs generalizing st with
  | nil =>
    simp only [List.nil_append, slip_run]
    cases slip_run st ys with
    | error e => rfl
    | ok v => rfl
  | cons b rest ih =>
    cases h : slip_step st b with
    | error e => simp [slip_run, h]
    | ok v =>
      obtain ⟨st2, o1⟩ := v
      have ih2 := ih st2
      cases h2 : slip_run st2 rest with
      | error e =>
        rw [h2] at ih2
        simp only at ih2
        simp only [List.cons_append, slip_run, h, List.append_eq]
        rw [ih2, h2]
      | ok w =>
        obtain ⟨st3, o2⟩ := w
        rw [h2] at ih2
        simp only at ih2
        cases h3 : slip_run st3 ys with
        | error e =>
          rw [h3] at ih2
          simp only at ih2
          simp only [List.cons_append, slip_run, h, List.append_eq]
          rw [ih2, h2]
          simp [h3]
        | ok u =>
          obtain ⟨st4, o3⟩ := u
          rw [h3] at ih2
          simp only at ih2
          simp only [List.cons_append, slip_run, h, List.append_eq]
          rw [ih2, h2]
          simp [h3, List.append_assoc]

theorem replaceByte_append (a : Nat) (rep : List Nat) (xs ys : List Nat) :
    replaceByte a rep (xs ++ ys) = replaceByte a rep xs ++ replaceByte a rep ys := by
  induction xs with
  | nil => rfl
  | cons b rest ih => simp [replaceByte, ih]

theorem slip_escape_eq (p : List Nat) :
    replaceByte 0xc0 [0xdb, 0xdc] (replaceByte 0xdb [0xdb, 0xdd] p) = escapeAll p := by
  induction p with
  | nil => rfl
  | cons b rest ih =>
    by_cases h1 : b = 0xdb
    · subst h1; simp [replaceByte, escapeAll, escapedByte, replaceByte_append, ih]
    · by_cases h2 : b = 0xc0
      · subst h2; simp [replaceByte, escapeAll, escapedByte, replaceByte_append, ih]
      · simp [replaceByte, escapeAll, escapedByte, replaceByte_append, h1, h2, ih]

theorem slip_run_escapedByte (acc : List Nat) (b : Nat) :
    slip_run ⟨some acc, false⟩ (escapedByte b) = .ok (⟨some (acc ++ [b]), false⟩, []) := by
  by_cases h1 : b = 0xdb
  · subst h1; rfl
  · by_cases h2 : b = 0xc0
    · subst h2; rfl
    · simp [escapedByte, slip_run, slip_step, h1, h2]

theorem slip_run_escapeAll (p : List Nat) : ∀ acc,
    slip_run ⟨some acc, false⟩ (escapeAll p) = .ok (⟨some (acc ++ p), false⟩, []) := by
  induction p with
  | nil => intro acc; simp [escapeAll, slip_run]
  | cons b rest ih =>
    intro acc
    rw [show escapeAll (b :: rest) = escapedByte b ++ escapeAll rest from rfl,
        slip_run_append, slip_run_escapedByte]
    simp [ih (acc ++ [b])]

/-- Claim C1: SLIP framing round-trip: encoding any byte sequence with
slip_encode and feeding it through the slip_reader state machine yields
exactly that sequence as the single decoded payload. -/
theorem slip_decode_slip_encode (b : List Nat) :
    slip_decode (slip_encode b) = .ok [b] := by
  unfold slip_decode slip_encode
  rw [slip_escape_eq]
  rw [show (0xc0 : Nat) :: (escapeAll b ++ [0xc0]) = [0xc0] ++ (escapeAll b ++ [0xc0]) from rfl]
  rw [slip_run_append]
  rw [show slip_run ⟨none, false⟩ [0xc0] = .ok (⟨some [], false⟩, []) from rfl]
  simp only
  rw [slip_run_append, slip_run_escapeAll]
  simp [slip_run, slip_step, Except.map]

/-- Claim C6 counterexample: encoding the sequence 0xC0 0xDB 0xC0 and
then decoding it is not rejected; it round-trips to the original
payload. -/
theorem slip_scenarioA_not_rejected :
    slip_decode (slip_encode [0xc0, 0xdb, 0xc0]) = .ok [[0xc0, 0xdb, 0xc0]] := rfl

/-- Claim C6 (amended): feeding the raw byte sequence 0xC0 0xDB 0xC0
directly to the decoder is rejected with an invalid escape framing
error, because the closing delimiter arrives while an escape sequence
is open. -/
theorem slip_raw_c0db_c0_rejected :
    slip_decode [0xc0, 0xdb, 0xc0] = .error (.invalidEscape 0xc0) := rfl

theorem checksum_shift (l : List Nat) : ∀ s, checksum l s = s ^^^ checksum l 0 := by
  induction l with
  | nil => intro s; simp [checksum]
  | cons b rest ih =>
    intro s
    rw [show checksum (b :: rest) s = checksum rest (s ^^^ b) from rfl,
        show checksum (b :: rest) 0 = checksum rest (0 ^^^ b) from rfl,
        ih (s ^^^ b), ih (0 ^^^ b)]
    simp [Nat.xor_assoc]

/-- Claim C3: the ROM checksum is an XOR fold of the data into the
seed, and folding the same data twice returns the seed. -/
theorem checksum_involution (data : List Nat) (seed : Nat) :
    checksum data (checksum data seed) = seed := by
  rw [checksum_shift data (checksum data seed), checksum_shift data seed,
      Nat.xor_assoc]
  simp

theorem foldl_and_decide_eq (l : List Nat) : ∀ (init : Bool),
    l.foldl (fun det v => det && decide (v = 0)) init
      = (init && l.all (fun v => decide (v = 0))) := by
  induction l with
  | nil => simp
  | cons b rest ih => intro init; simp [List.foldl, ih, Bool.and_assoc]

/-- Claim C4: after sync, the stub detected flag is true exactly when
the value field of the sync reply and the value fields of all 7 drain
reads are zero. -/
theorem sync_stub_detected_iff (v : Nat) (drain : List Nat)
    (_h : drain.length = 7) :
    sync_stub_detected v drain = true ↔ (v = 0 ∧ ∀ x ∈ drain, x = 0) := by
  unfold sync_stub_detected
  rw [foldl_and_decide_eq]
  simp

theorem sync_stub_detected_iff_witness :
    (List.replicate 7 0).length = 7 ∧
      sync_stub_detected 0 (List.replicate 7 0) = true :=
  ⟨by decide,
   (sync_stub_detected_iff 0 (List.replicate 7 0) (by decide)).mpr (by decide)⟩

end EmsEspFlasher
namespace EmsEspFlasher

/-- Claim C5: with a resident stub, a RAM download session whose load
range overlaps the stub data or text range fails with the fatal
overlap error before any session command is sent, so no RAM block is
transmitted. -/
theorem ram_download_overlap_fatal (stub : StubCode) (ram_block offs : Nat)
    (payload : List Nat)
    (h : (offs < stub.data_start + stub.data.length ∧
            offs + payload.length > stub.data_start) ∨
         (offs < stub.text_start + stub.text.length ∧
            offs + payload.length > stub.text_start)) :
    ram_download true stub ram_block offs payload =
      .error "Software loader is resident at an overlapping address range" := by
  unfold ram_download mem_begin
  rcases h with h | h
  · simp [h]
  · by_cases hd : offs < stub.data_start + stub.data.length ∧
        offs + payload.length > stub.data_start
    · simp [hd]
    · simp [hd, h]

theorem ram_download_overlap_fatal_witness :
    ram_download true ⟨[1, 2, 3, 4], 4, [9], 0x100⟩ 2 6 [0, 0] =
      .error "Software loader is resident at an overlapping address range" :=
  ram_download_overlap_fatal ⟨[1, 2, 3, 4], 4, [9], 0x100⟩ 2 6 [0, 0]
    (Or.inr (by decide))

/-- Claim C8: BaseFirmwareImage.verify accepts an image exactly when
it has at most 16 segments, so an image with 17 segments is rejected
and one with at most 16 passes this check. -/
theorem verify_segment_count (img : BaseFirmwareImage) :
    img.verify = .ok () ↔ img.segments.length ≤ 16 := by
  unfold BaseFirmwareImage.verify
  by_cases h : img.segments.length > 16
  · simp [h]
  · simp [h]
    omega

end EmsEspFlasher
namespace EmsEspFlasher

theorem update_image_flash_params_cases (esp : EspCfg) (address : Nat)
    (args : FlashArgs) (image : List Nat) :
    _update_image_flash_params esp address args image = image ∨
    (8 ≤ image.length ∧ address = esp.BOOTLOADER_FLASH_OFFSET ∧
      image.getD 0 0 = esp.ESP_IMAGE_MAGIC ∧
      esp.bootloaderImageOK image = true ∧
      ∃ a b, _update_image_flash_params esp address args image
        = image.take 2 ++ [a, b] ++ image.drop 4) := by
  unfold _update_image_flash_params
  split_ifs with h1 h2 h3 h4 h5
  · exact Or.inl rfl
  · exact Or.inl rfl
  · exact Or.inl rfl
  · exact Or.inl rfl
  · dsimp only
    split_ifs with h6
    · exact Or.inl rfl
    · exact Or.inr ⟨by omega, by tauto, by tauto, by simpa using h5, _, _, rfl⟩
  · exact Or.inl rfl

theorem patch23_shape (l : List Nat) (a b : Nat) (hlen : 8 ≤ l.length) :
    (l.take 2 ++ [a, b] ++ l.drop 4).length = l.length ∧
    ∀ i, i ≠ 2 → i ≠ 3 → (l.take 2 ++ [a, b] ++ l.drop 4).getD i 0 = l.getD i 0 := by
  rcases l with _ | ⟨b0, l⟩
  · simp at hlen
  rcases l with _ | ⟨b1, l⟩
  · simp at hlen
  rcases l with _ | ⟨b2, l⟩
  · simp at hlen
  rcases l with _ | ⟨b3, l⟩
  · simp at hlen
  refine ⟨by simp, ?_⟩
  intro i h2 h3
  match i with
  | 0 => rfl
  | 1 => rfl
  | 2 => exact absurd rfl h2
  | 3 => exact absurd rfl h3
  | (n + 4) => rfl

theorem update_image_flash_params_length (esp : EspCfg) (address : Nat)
    (args : FlashArgs) (image : List Nat) :
    (_update_image_flash_params esp address args image).length = image.length := by
  rcases update_image_flash_params_cases esp address args image with h | ⟨hlen, _, _, _, a, b, hp⟩
  · rw [h]
  · rw [hp]
    exact (patch23_shape image a b hlen).1

/-- Claim C7: update_image_flash_params returns the buffer byte for
byte unchanged unless the write address is the bootloader flash
offset, the first byte is the image magic and the buffer verifies as a
valid bootloader image; and in every case the result differs from the
input at most in bytes 2 and 3. -/
theorem update_image_flash_params_frame (esp : EspCfg) (address : Nat)
    (args : FlashArgs) (image : List Nat) :
    ((address ≠ esp.BOOTLOADER_FLASH_OFFSET ∨
        image.getD 0 0 ≠ esp.ESP_IMAGE_MAGIC ∨
        esp.bootloaderImageOK image = false) →
      _update_image_flash_params esp address args image = image) ∧
    (_update_image_flash_params esp address args image).length = image.length ∧
    ∀ i, i ≠ 2 → i ≠ 3 →
      (_update_image_flash_params esp address args image).getD i 0 = image.getD i 0 := by
  rcases update_image_flash_params_cases esp address args image with h | ⟨hlen, ha, hm, hok, a, b, hp⟩
  · rw [h]
    exact ⟨fun _ => rfl, rfl, fun i _ _ => rfl⟩
  · obtain ⟨hL, hG⟩ := patch23_shape image a b hlen
    refine ⟨?_, by rw [hp]; exact hL, fun i hi2 hi3 => by rw [hp]; exact hG i hi2 hi3⟩
    intro hC
    rcases hC with hC | hC | hC
    · exact absurd ha hC
    · exact absurd hm hC
    · rw [hok] at hC
      cases hC

end EmsEspFlasher
namespace EmsEspFlasher

theorem div_roundup_zero (bs : Nat) : div_roundup 0 bs = 0 := by
  unfold div_roundup
  rcases Nat.eq_zero_or_pos bs with h | h
  · subst h; rfl
  · exact Nat.div_eq_of_lt (by omega)

theorem div_roundup_step (len bs : Nat) (hbs : 0 < bs) (hlen : 0 < len) :
    div_roundup len bs = div_roundup (len - bs) bs + 1 := by
  unfold div_roundup
  rcases le_or_lt len bs with hle | hlt
  · have h1 : len - bs = 0 := by omega
    rw [h1]
    have h2 : (0 + bs - 1) / bs = 0 := Nat.div_eq_of_lt (by omega)
    rw [h2]
    have h3 : len + bs - 1 = (len - 1) + bs := by omega
    rw [h3, Nat.add_div_right _ hbs, Nat.div_eq_of_lt (by omega)]
  · have h3 : len + bs - 1 = (len - bs + bs - 1) + bs := by omega
    rw [h3, Nat.add_div_right _ hbs]

theorem write_loop_plain_spec (bs : Nat) (enc : Bool) (hbs : 0 < bs) :
    ∀ n img seq, img.length ≤ n →
      (write_loop bs false enc img seq).length = div_roundup img.length bs ∧
      ∀ c ∈ write_loop bs false enc img seq, ∃ d s,
        d.length = bs ∧
        c = (if enc then FlashCmd.flashEncryptBlockCmd d s else FlashCmd.flashBlockCmd d s) := by
  intro n
  induction n with
  | zero =>
    intro img seq h
    have himg : img = [] := List.eq_nil_of_length_eq_zero (by omega)
    subst himg
    rw [write_loop]
    simp [div_roundup_zero]
  | succ n ih =>
    intro img seq h
    by_cases himg : img = []
    · subst himg
      rw [write_loop]
      simp [div_roundup_zero]
    · rw [write_loop]
      have hcond : ¬(img = [] ∨ bs = 0) := by
        push_neg
        exact ⟨himg, by omega⟩
      simp only [hcond, dite_false]
      have hlen : 0 < img.length := List.length_pos.mpr himg
      have hdrop : (img.drop bs).length ≤ n := by
        simp only [List.length_drop]
        omega
      obtain ⟨ihc, ihm⟩ := ih (img.drop bs) (seq + 1) hdrop
      constructor
      · simp only [List.length_cons, ihc, List.length_drop]
        rw [div_roundup_step img.length bs hbs hlen]
      · intro c hc
        rcases List.mem_cons.mp hc with hc | hc
        · refine ⟨(img.take bs) ++ List.replicate (bs - (img.take bs).length) 0xFF, seq, ?_, ?_⟩
          · simp only [List.length_append, List.length_take, List.length_replicate]
            omega
          · cases enc <;> simp [hc]
        · exact ihm c hc

end EmsEspFlasher
namespace EmsEspFlasher

theorem pad_to_length_ge (data : List Nat) (al : Nat) :
    data.length ≤ (pad_to data al).length := by
  by_cases h : data.length % al ≠ 0
  · simp [pad_to, h]
  · simp [pad_to, h]

theorem filterMap_all_some_length {α β : Type} (f : α → Option β) (l : List α)
    (h : ∀ c ∈ l, (f c).isSome) : (l.filterMap f).length = l.length := by
  induction l with
  | nil => rfl
  | cons a rest ih =>
    rw [List.filterMap_cons]
    cases hf : f a with
    | none =>
      have := h a (List.mem_cons_self a rest)
      rw [hf] at this
      cases this
    | some b =>
      simp only [List.length_cons]
      rw [ih (fun c hc => h c (List.mem_cons_of_mem a hc))]

theorem sum_map_length_const (l : List (List Nat)) (bs : Nat)
    (h : ∀ d ∈ l, d.length = bs) : (l.map List.length).sum = l.length * bs := by
  induction l with
  | nil => simp
  | cons d rest ih =>
    simp only [List.map_cons, List.sum_cons, List.length_cons]
    rw [h d (List.mem_cons_self d rest), ih (fun x hx => h x (List.mem_cons_of_mem d hx))]
    ring

/-- Claim C2: through the uncompressed, unencrypted write_flash path,
a non-empty file is cut into exactly ceil(size over block size) flash
block commands, every transmitted block is exactly one block size
long (the last one padded with 0xFF), the block lengths sum to the
block count times the block size, and the closing MD5 comparison is
over the unpadded size-byte buffer. -/
theorem write_flash_file_block_invariant (esp : EspCfg) (args : FlashArgs)
    (compressFn : List Nat → List Nat) (address : Nat) (fileData image : List Nat)
    (hbs : 0 < esp.FLASH_WRITE_SIZE) (hne : fileData ≠ [])
    (hsec : esp.secure_download_mode = false)
    (himg : image = _update_image_flash_params esp address args (pad_to fileData 4)) :
    (flashBlockDatas (write_flash_file esp args false compressFn address fileData false)).length
      = div_roundup image.length esp.FLASH_WRITE_SIZE ∧
    (∀ d ∈ flashBlockDatas (write_flash_file esp args false compressFn address fileData false),
      d.length = esp.FLASH_WRITE_SIZE) ∧
    ((flashBlockDatas (write_flash_file esp args false compressFn address fileData false)).map
        List.length).sum
      = div_roundup image.length esp.FLASH_WRITE_SIZE * esp.FLASH_WRITE_SIZE ∧
    FlashCmd.md5CheckCmd address image.length image
      ∈ write_flash_file esp args false compressFn address fileData false := by
  have hpadne : ¬((pad_to fileData 4).length = 0) := by
    have h1 := pad_to_length_ge fileData 4
    have h2 : fileData.length ≠ 0 := fun h => hne (List.eq_nil_of_length_eq_zero h)
    omega
  unfold write_flash_file
  simp only [Bool.false_and, if_neg hpadne, hsec, Bool.not_false, and_true, if_pos,
    Bool.false_eq_true, if_false, not_false_eq_true]
  rw [← himg]
  obtain ⟨hcount, hmem⟩ :=
    write_loop_plain_spec esp.FLASH_WRITE_SIZE false hbs image.length image 0 (le_refl _)
  have hblocks : ∀ d ∈ flashBlockDatas
      (write_loop esp.FLASH_WRITE_SIZE false false image 0),
      d.length = esp.FLASH_WRITE_SIZE := by
    intro d hd
    obtain ⟨c, hc, hfc⟩ := List.mem_filterMap.mp hd
    obtain ⟨d0, s0, hd0, hceq⟩ := hmem c hc
    subst hceq
    obtain rfl : d0 = d := by simpa using hfc
    exact hd0
  have hsome : ∀ c ∈ write_loop esp.FLASH_WRITE_SIZE false false image 0,
      ((fun c => match c with
        | FlashCmd.flashBlockCmd d _ => some d
        | _ => none) c).isSome := by
    intro c hc
    obtain ⟨d0, s0, hd0, hceq⟩ := hmem c hc
    subst hceq
    rfl
  have hlen : (flashBlockDatas (write_loop esp.FLASH_WRITE_SIZE false false image 0)).length
      = div_roundup image.length esp.FLASH_WRITE_SIZE := by
    unfold flashBlockDatas
    rw [filterMap_all_some_length _ _ hsome, hcount]
  have hdatas : flashBlockDatas
      (FlashCmd.flashBeginCmd (div_roundup image.length esp.FLASH_WRITE_SIZE)
          esp.FLASH_WRITE_SIZE address
        :: write_loop esp.FLASH_WRITE_SIZE false false image 0
        ++ [FlashCmd.md5CheckCmd address image.length image])
      = flashBlockDatas (write_loop esp.FLASH_WRITE_SIZE false false image 0) := by
    unfold flashBlockDatas
    rw [List.cons_append, List.filterMap_cons, List.filterMap_append]
    simp
  refine ⟨?_, ?_, ?_, ?_⟩
  · rw [hdatas, hlen]
  · rw [hdatas]
    exact hblocks
  · rw [hdatas, sum_map_length_const _ _ hblocks, hlen]
  · simp

end EmsEspFlasher
namespace EmsEspFlasher

theorem write_loop_plain_no_defl (bs : Nat) (enc : Bool) :
    ∀ n img seq, img.length ≤ n → ∀ c ∈ write_loop bs false enc img seq,
      (∀ d s, c ≠ FlashCmd.flashDeflBlockCmd d s) ∧
      ∀ a b o, c ≠ FlashCmd.flashDeflBeginCmd a b o := by
  intro n
  induction n with
  | zero =>
    intro img seq h c hc
    have himg : img = [] := List.eq_nil_of_length_eq_zero (by omega)
    subst himg
    rw [write_loop] at hc
    simp at hc
  | succ n ih =>
    intro img seq h c hc
    by_cases himg : img = []
    · subst himg
      rw [write_loop] at hc
      simp at hc
    · by_cases hbs : bs = 0
      · rw [write_loop] at hc
        simp [hbs] at hc
      · rw [write_loop] at hc
        have hcond : ¬(img = [] ∨ bs = 0) := by
          push_neg
          exact ⟨himg, hbs⟩
        simp only [hcond, dite_false] at hc
        rcases List.mem_cons.mp hc with hc | hc
        · subst hc
          cases enc <;> exact ⟨fun d s => by simp, fun a b o => by simp⟩
        · refine ih (img.drop bs) (seq + 1) ?_ c hc
          simp only [List.length_drop]
          omega

theorem write_flash_files_append (esp : EspCfg) (args : FlashArgs)
    (ac : Bool) (f : List Nat → List Nat) (xs ys : List (Nat × List Nat × Bool)) :
    write_flash_files esp args ac f (xs ++ ys)
      = write_flash_files esp args ac f xs ++ write_flash_files esp args ac f ys := by
  induction xs with
  | nil => rfl
  | cons x rest ih =>
    obtain ⟨a, d, e⟩ := x
    simp only [List.cons_append, write_flash_files, List.append_eq, ih, List.append_assoc]

/-- Claim C9: when a file of the batch is both compressed and
encrypted, compression is dropped for that file: its trace equals the
uncompressed trace of the same encrypted file and holds no deflate
begin or deflate block command, while the other files of the batch
are still processed with the requested compression setting. -/
theorem write_flash_encrypted_drops_compression (esp : EspCfg) (args : FlashArgs)
    (compressFn : List Nat → List Nat) (address : Nat) (fileData : List Nat)
    (fs1 fs2 : List (Nat × List Nat × Bool)) :
    write_flash_file esp args true compressFn address fileData true
      = write_flash_file esp args false compressFn address fileData true ∧
    (∀ c ∈ write_flash_file esp args true compressFn address fileData true,
      (∀ d s, c ≠ FlashCmd.flashDeflBlockCmd d s) ∧
      ∀ a b o, c ≠ FlashCmd.flashDeflBeginCmd a b o) ∧
    write_flash_files esp args true compressFn (fs1 ++ (address, fileData, true) :: fs2)
      = write_flash_files esp args true compressFn fs1
        ++ write_flash_file esp args false compressFn address fileData true
        ++ write_flash_files esp args true compressFn fs2 := by
  have heq : write_flash_file esp args true compressFn address fileData true
      = write_flash_file esp args false compressFn address fileData true := rfl
  refine ⟨heq, ?_, ?_⟩
  · intro c hc
    rw [heq] at hc
    unfold write_flash_file at hc
    by_cases hlen : (pad_to fileData esp.FLASH_ENCRYPTED_WRITE_ALIGN).length = 0
    · simp [hlen] at hc
      subst hc
      exact ⟨fun d s => by simp, fun a b o => by simp⟩
    · simp [hlen] at hc
      rcases hc with hc | hc
      · subst hc
        exact ⟨fun d s => by simp, fun a b o => by simp⟩
      · exact write_loop_plain_no_defl esp.FLASH_WRITE_SIZE true _ _ 0 (le_refl _) c hc
  · rw [write_flash_files_append]
    simp only [write_flash_files, heq]
    simp [List.append_assoc]

end EmsEspFlasher
namespace EmsEspFlasher

/-- Claim C10: an empty file in the write_flash batch yields only the
empty-file warning: no flash begin, block or MD5 command is issued
for it, and the remaining files of the batch are still processed. -/
theorem write_flash_empty_file_skipped (esp : EspCfg) (args : FlashArgs)
    (argsCompress : Bool) (compressFn : List Nat → List Nat) (address : Nat)
    (encrypted : Bool) (fs1 fs2 : List (Nat × List Nat × Bool)) :
    write_flash_file esp args argsCompress compressFn address [] encrypted
      = [FlashCmd.warnEmptyCmd] ∧
    write_flash_files esp args argsCompress compressFn
        (fs1 ++ (address, ([] : List Nat), encrypted) :: fs2)
      = write_flash_files esp args argsCompress compressFn fs1
        ++ FlashCmd.warnEmptyCmd
          :: write_flash_files esp args argsCompress compressFn fs2 := by
  have h1 : write_flash_file esp args argsCompress compressFn address [] encrypted
      = [FlashCmd.warnEmptyCmd] := by
    unfold write_flash_file
    simp [pad_to]
  refine ⟨h1, ?_⟩
  rw [write_flash_files_append]
  simp only [write_flash_files, h1]
  simp

theorem write_flash_file_block_invariant_witness :
    (flashBlockDatas (write_flash_file ⟨0, 0xE9, 4, 16, false, fun _ => false⟩
        ⟨KeepOr.keep, KeepOr.keep, KeepOr.keep⟩ false (fun l => l)
        0x1000 [1, 2, 3, 4, 5] false)).length
      = div_roundup ([1, 2, 3, 4, 5, 0xFF, 0xFF, 0xFF] : List Nat).length 4 ∧
    (∀ d ∈ flashBlockDatas (write_flash_file ⟨0, 0xE9, 4, 16, false, fun _ => false⟩
        ⟨KeepOr.keep, KeepOr.keep, KeepOr.keep⟩ false (fun l => l)
        0x1000 [1, 2, 3, 4, 5] false), d.length = 4) ∧
    ((flashBlockDatas (write_flash_file ⟨0, 0xE9, 4, 16, false, fun _ => false⟩
        ⟨KeepOr.keep, KeepOr.keep, KeepOr.keep⟩ false (fun l => l)
        0x1000 [1, 2, 3, 4, 5] false)).map List.length).sum
      = div_roundup ([1, 2, 3, 4, 5, 0xFF, 0xFF, 0xFF] : List Nat).length 4 * 4 ∧
    FlashCmd.md5CheckCmd 0x1000 ([1, 2, 3, 4, 5, 0xFF, 0xFF, 0xFF] : List Nat).length
        [1, 2, 3, 4, 5, 0xFF, 0xFF, 0xFF]
      ∈ write_flash_file ⟨0, 0xE9, 4, 16, false, fun _ => false⟩
        ⟨KeepOr.keep, KeepOr.keep, KeepOr.keep⟩ false (fun l => l)
        0x1000 [1, 2, 3, 4, 5] false :=
  write_flash_file_block_invariant ⟨0, 0xE9, 4, 16, false, fun _ => false⟩
    ⟨KeepOr.keep, KeepOr.keep, KeepOr.keep⟩ (fun l => l) 0x1000 [1, 2, 3, 4, 5]
    [1, 2, 3, 4, 5, 0xFF, 0xFF, 0xFF] (by decide) (by decide) rfl (by decide)

end EmsEspFlasher
